import Mathlib

/-!
# Verification of the Sovereign-Portfolio-AI backend

Shallow embedding of the repository's backend modules
(`src/backend/vector_store.py`, `src/backend/data_processor.py`,
`src/backend/ai_engine.py`) and of `src/frontend/utils.py`,
together with theorems settling the frozen claims about them.

Python dictionaries with optional keys are modelled as structures with
`Option` fields; `dict.get(key, default)` becomes `Option.getD`.
Numeric values are modelled as `Rat` (the code performs only field
arithmetic; no claim depends on float rounding).  Python string
formatting of numbers (`{:,.0f}`, `{:.2%}` …) is abstracted to
`toString`; no claim depends on the rendered digits.
-/

namespace SPAI

/-! ## Definitions: shallow embedding of the source modules -/

/-- Pair every element of a list with its position, starting at `i`.
Used to model Python `enumerate` and the FAISS id assignment. -/
def withIdx : Nat → List α → List (α × Nat)
  | _, [] => []
  | i, a :: as => (a, i) :: withIdx (i + 1) as

/-- The `portfolio_summary` sub-dictionary, as read by the vector store. -/
structure PortfolioSummary where
  fund_name : Option String := none
  total_aum : Option Rat := none
  target_return : Option Rat := none
  total_holdings : Option Rat := none
  risk_level : Option String := none
deriving DecidableEq

/-- The `performance_summary` sub-dictionary, as read by the vector store. -/
structure PerformanceSummary where
  total_return : Option Rat := none
  daily_return : Option Rat := none
  volatility : Option Rat := none
  sharpe_ratio : Option Rat := none
  max_drawdown : Option Rat := none
  active_return : Option Rat := none
deriving DecidableEq

/-- The `risk_summary` sub-dictionary, as read by the vector store. -/
structure RiskSummary where
  portfolio_beta : Option Rat := none
  var_95 : Option Rat := none
  cvar_95 : Option Rat := none
  tracking_error : Option Rat := none
  correlation_benchmark : Option Rat := none
  concentration_risk : Option Rat := none
  liquidity_score : Option Rat := none
deriving DecidableEq

/-- One record of the `top_holdings` aggregate: the five columns selected
by `_calculate_metrics` in `data_processor.py`. -/
structure TopHoldingRec where
  Asset_Name : String
  Ticker_Symbol : String
  Market_Value : Rat
  Weight_Percent : Rat
  Sector : String
deriving DecidableEq

/-- A portfolio-data dictionary handed to the vector store; each of the
keys used by `_create_embeddings` / `get_context_for_query` may be
missing.  The `sector_allocation` dict is an association list
sector ↦ market value. -/
structure PortfolioData where
  portfolio_summary : Option PortfolioSummary := none
  performance_summary : Option PerformanceSummary := none
  risk_summary : Option RiskSummary := none
  sector_allocation : Option (List (String × Rat)) := none
  top_holdings : Option (List TopHoldingRec) := none
deriving DecidableEq

/-- Portfolio-level features (`_create_embeddings`, portfolio block). -/
def portfolioFeatures (p : PortfolioSummary) : List Rat :=
  [p.total_aum.getD 0 / 1000000000, p.target_return.getD 0,
   p.total_holdings.getD 0 / 100]

/-- Performance features (`_create_embeddings`, performance block). -/
def performanceFeatures (p : PerformanceSummary) : List Rat :=
  [p.total_return.getD 0, p.daily_return.getD 0, p.volatility.getD 0,
   p.sharpe_ratio.getD 0, p.max_drawdown.getD 0, p.active_return.getD 0]

/-- Risk features (`_create_embeddings`, risk block). -/
def riskFeatures (r : RiskSummary) : List Rat :=
  [r.portfolio_beta.getD 0, r.var_95.getD 0 / 1000000, r.tracking_error.getD 0,
   r.correlation_benchmark.getD 0, r.concentration_risk.getD 0,
   r.liquidity_score.getD 0 / 10]

/-- Sector features (`_create_embeddings`, sector block): top-5 sector
values normalised by the total, then the Herfindahl index.  When the
dict is empty Python uses `total_value = 1` and weights `[0]*5`. -/
def sectorFeatures (secs : List (String × Rat)) : List Rat :=
  if secs.isEmpty then [0, 0, 0, 0, 0] ++ [0]
  else
    let total := (secs.map Prod.snd).sum
    let weights := ((secs.map Prod.snd).mergeSort (fun a b => decide (b ≤ a))).take 5
    weights.map (· / total) ++ [(secs.map (fun p => (p.2 / total) ^ 2)).sum]

/-- The feature list built by the four conditional blocks of
`_create_embeddings`, before padding/truncation. -/
def embeddingFeatures (d : PortfolioData) : List Rat :=
  (match d.portfolio_summary with | none => [] | some p => portfolioFeatures p) ++
  (match d.performance_summary with | none => [] | some p => performanceFeatures p) ++
  (match d.risk_summary with | none => [] | some r => riskFeatures r) ++
  (match d.sector_allocation with | none => [] | some s => sectorFeatures s)

/-- Python raises `ZeroDivisionError` inside the `try` of
`_create_embeddings` exactly when the sector dict is nonempty and its
values sum to zero (`w / total_value` with `total_value == 0`); the
`except` then returns the all-zero vector. -/
def sectorDivByZero (d : PortfolioData) : Bool :=
  match d.sector_allocation with
  | none => false
  | some secs => !secs.isEmpty && decide ((secs.map Prod.snd).sum = 0)

/-- Model of `_create_embeddings`: extract features, pad with `0.0` up to the
store dimension, truncate to the dimension; on an internal exception
return the all-zero vector of that dimension. -/
def _create_embeddings (dim : Nat) (d : PortfolioData) : List Rat :=
  if sectorDivByZero d then List.replicate dim 0
  else
    let features := embeddingFeatures d
    (features ++ List.replicate (dim - features.length) 0).take dim

/-- The metadata record built by `add_portfolio_data`. -/
structure SnapshotMeta where
  timestamp : String
  data_summary : String
  portfolio_name : String
  total_return : Rat
  volatility : Rat
  risk_level : String
deriving DecidableEq, Inhabited

/-- Model of `_create_data_summary`: the " | "-joined text summary.  Python's
numeric format specifiers are abstracted to `toString`. -/
def _create_data_summary (d : PortfolioData) : String :=
  let parts :=
    (match d.portfolio_summary with
     | none => []
     | some p =>
       ["Portfolio: " ++ p.fund_name.getD "Unknown",
        "AUM: " ++ toString (p.total_aum.getD 0),
        "Risk Level: " ++ p.risk_level.getD "Unknown"]) ++
    (match d.performance_summary with
     | none => []
     | some p =>
       ["Return: " ++ toString (p.total_return.getD 0),
        "Volatility: " ++ toString (p.volatility.getD 0),
        "Sharpe: " ++ toString (p.sharpe_ratio.getD 0)]) ++
    (match d.risk_summary with
     | none => []
     | some r =>
       ["Beta: " ++ toString (r.portfolio_beta.getD 0),
        "VaR: " ++ toString (r.var_95.getD 0)])
  String.intercalate " | " parts

/-- State of `PortfolioVectorStore`: the FAISS `IndexFlatIP` contents
(`indexVecs`, Python `self.index`), the `embeddings` and `metadata`
lists, the dimension and the `is_trained` flag. -/
structure VectorStore where
  dimension : Nat
  indexVecs : List (List Rat)
  embeddings : List (List Rat)
  metadata : List SnapshotMeta
  is_trained : Bool
deriving DecidableEq

/-- Model of `PortfolioVectorStore.__init__`: empty flat index, default
dimension 384. -/
def VectorStore.init (dimension : Nat := 384) : VectorStore :=
  { dimension := dimension, indexVecs := [], embeddings := [],
    metadata := [], is_trained := false }

/-- The metadata built for one snapshot (body of `add_portfolio_data`);
`processed_data.get(key, {}).get(field, default)` chains. -/
def mkSnapshotMeta (d : PortfolioData) (timestamp : String) : SnapshotMeta :=
  { timestamp := timestamp
    data_summary := _create_data_summary d
    portfolio_name :=
      match d.portfolio_summary with
      | none => "Unknown" | some p => p.fund_name.getD "Unknown"
    total_return :=
      match d.performance_summary with
      | none => 0 | some p => p.total_return.getD 0
    volatility :=
      match d.performance_summary with
      | none => 0 | some p => p.volatility.getD 0
    risk_level :=
      match d.portfolio_summary with
      | none => "Unknown" | some p => p.risk_level.getD "Unknown" }

/-- Model of `add_portfolio_data`: embed, append to the index and both lists, set
`is_trained`, and return the id `len(self.embeddings)` taken before the
append.  The `timestamp or datetime.now().isoformat()` default is
resolved by the caller into the `timestamp` argument. -/
def add_portfolio_data (s : VectorStore) (d : PortfolioData) (timestamp : String) :
    VectorStore × Nat :=
  let embedding := _create_embeddings s.dimension d
  let vector_id := s.embeddings.length
  ({ s with
      indexVecs := s.indexVecs ++ [embedding]
      embeddings := s.embeddings ++ [embedding]
      metadata := s.metadata ++ [mkSnapshotMeta d timestamp]
      is_trained := true }, vector_id)

/-- Inner product of two feature vectors (FAISS `IndexFlatIP` metric). -/
def innerProduct (q v : List Rat) : Rat := (List.zipWith (· * ·) q v).sum

/-- FAISS `IndexFlatIP.search`: exact search returning `(score, id)`
pairs for the `k` stored vectors with the largest inner product against
the query, ordered by descending score (ids stable for tied scores). -/
def faissSearch (vecs : List (List Rat)) (q : List Rat) (k : Nat) :
    List (Rat × Nat) :=
  ((withIdx 0 (vecs.map (innerProduct q))).mergeSort
    (fun a b => decide (b.1 ≤ a.1))).take k

/-- One entry of the list returned by `search_similar_portfolios`. -/
structure SearchResult where
  similarity_score : Rat
  metadata : SnapshotMeta
  rank : Nat
deriving DecidableEq

/-- Model of `search_similar_portfolios`: guard on `is_trained` / emptiness, embed
the query, search the index with `min(k, len(self.embeddings))`, and
keep the results whose id indexes into `self.metadata`, ranking them by
enumeration position + 1. -/
def search_similar_portfolios (s : VectorStore) (query_data : PortfolioData)
    (k : Nat) : List SearchResult :=
  if s.is_trained = false ∨ s.embeddings.length = 0 then []
  else
    let query_embedding := _create_embeddings s.dimension query_data
    let pairs := faissSearch s.indexVecs query_embedding (min k s.embeddings.length)
    (withIdx 0 pairs).filterMap fun pr =>
      (s.metadata[pr.1.2]?).map fun m =>
        { similarity_score := pr.1.1, metadata := m, rank := pr.2 + 1 }

/-- The pickled dictionary written by `save_index`. -/
structure SavedPickle where
  embeddings : List (List Rat)
  metadata : List SnapshotMeta
  dimension : Nat
  is_trained : Bool
deriving DecidableEq

/-- The file system seen by `save_index` / `load_index`: for a base
`filepath`, the `.index` file holds a serialized flat index and the
`.metadata` file a pickled dictionary. -/
structure FileSystem where
  indexFiles : String → Option (List (List Rat))
  metaFiles : String → Option SavedPickle

/-- Model of `save_index`: write the FAISS index to `filepath.index` and the
pickle to `filepath.metadata`. -/
def save_index (s : VectorStore) (fs : FileSystem) (filepath : String) :
    FileSystem :=
  { indexFiles := fun p =>
      if p = filepath then some s.indexVecs else fs.indexFiles p
    metaFiles := fun p =>
      if p = filepath then
        some ⟨s.embeddings, s.metadata, s.dimension, s.is_trained⟩
      else fs.metaFiles p }

/-- Model of `load_index`: if `filepath.index` does not exist return `False`
untouched; otherwise read the index, then the pickle, restoring all four
pickled fields and returning `True`.  A missing `.metadata` file raises
after `self.index` was already replaced; the `except` returns `False`
with that partial mutation. -/
def load_index (s : VectorStore) (fs : FileSystem) (filepath : String) :
    VectorStore × Bool :=
  match fs.indexFiles filepath with
  | none => (s, false)
  | some vecs =>
    match fs.metaFiles filepath with
    | none => ({ s with indexVecs := vecs }, false)
    | some pk =>
      ({ dimension := pk.dimension, indexVecs := vecs,
         embeddings := pk.embeddings, metadata := pk.metadata,
         is_trained := pk.is_trained }, true)

/-- The dictionary returned by `get_stats`. -/
structure Stats where
  total_vectors : Nat
  dimension : Nat
  is_trained : Bool
  index_size : Nat
deriving DecidableEq

/-- Model of `get_stats`: counts and flags; `index_size` is `self.index.ntotal`. -/
def get_stats (s : VectorStore) : Stats :=
  { total_vectors := s.embeddings.length
    dimension := s.dimension
    is_trained := s.is_trained
    index_size := s.indexVecs.length }

/-- Python's `needle in hay` substring test, on character lists. -/
def containsSeq (needle : List Char) : List Char → Bool
  | [] => needle.isEmpty
  | c :: rest => needle.isPrefixOf (c :: rest) || containsSeq needle rest

/-- Python `str.lower()`, on character lists. -/
def toLowerChars (l : List Char) : List Char := l.map Char.toLower

/-- Python `str.strip()`: drop leading and trailing whitespace. -/
def trimChars (l : List Char) : List Char :=
  ((l.dropWhile Char.isWhitespace).reverse.dropWhile Char.isWhitespace).reverse

/-- Python `str.split('\n')`, on character lists. -/
def splitLines : List Char → List (List Char)
  | [] => [[]]
  | c :: rest =>
    match splitLines rest with
    | [] => [[]]
    | l :: ls => if c = '\n' then [] :: l :: ls else (c :: l) :: ls

/-- Model of `get_context_for_query`: current-portfolio summary, up to two similar
snapshots, and a query-keyword block.  Reads state only. -/
def get_context_for_query (s : VectorStore) (query : String)
    (current_data : PortfolioData) : String :=
  let similar := search_similar_portfolios s current_data 2
  let parts1 :=
    match current_data.portfolio_summary with
    | none => []
    | some _ => ["CURRENT PORTFOLIO:", _create_data_summary current_data]
  let parts2 :=
    if similar.isEmpty then []
    else "\nSIMILAR HISTORICAL PERIODS:" ::
      similar.map fun r =>
        "- " ++ r.metadata.data_summary ++ " (Similarity: " ++
          toString r.similarity_score ++ ")"
  let ql := toLowerChars query.toList
  let parts3 :=
    if containsSeq "risk".toList ql then
      match current_data.risk_summary with
      | none => []
      | some r =>
        ["\nRISK CONTEXT:",
         "Beta: " ++ toString (r.portfolio_beta.getD 0) ++ ", VaR: " ++
           toString (r.var_95.getD 0),
         "Tracking Error: " ++ toString (r.tracking_error.getD 0)]
    else if containsSeq "performance".toList ql ∨
        containsSeq "return".toList ql then
      match current_data.performance_summary with
      | none => []
      | some p =>
        ["\nPERFORMANCE CONTEXT:",
         "Total Return: " ++ toString (p.total_return.getD 0),
         "Volatility: " ++ toString (p.volatility.getD 0),
         "Sharpe Ratio: " ++ toString (p.sharpe_ratio.getD 0)]
    else if containsSeq "holding".toList ql ∨
        containsSeq "sector".toList ql then
      match current_data.top_holdings with
      | none => []
      | some hs =>
        "\nHOLDINGS CONTEXT:" ::
          (hs.take 3).map fun h =>
            "- " ++ h.Asset_Name ++ ": " ++ toString h.Weight_Percent
    else []
  String.intercalate "\n" (parts1 ++ parts2 ++ parts3)

/-- The list the FAISS index sorts: all `(inner product, id)` pairs. -/
def scoredPairs (vecs : List (List Rat)) (q : List Rat) : List (Rat × Nat) :=
  withIdx 0 (vecs.map (innerProduct q))

/-- Comparator used by the model of FAISS: larger score first. -/
def scoreGE (a b : Rat × Nat) : Bool := decide (b.1 ≤ a.1)

/-- The `(score, id)` pairs that `search_similar_portfolios` receives
from the index (the Python locals `scores[0]`, `indices[0]`). -/
def searchSel (s : VectorStore) (q : PortfolioData) (k : Nat) : List (Rat × Nat) :=
  faissSearch s.indexVecs (_create_embeddings s.dimension q)
    (min k s.embeddings.length)

/-- A sequence of `add_portfolio_data` calls threaded through the store,
collecting the returned vector ids. -/
def addAll (s : VectorStore) (ds : List (PortfolioData × String)) :
    VectorStore × List Nat :=
  ds.foldl (fun acc dt =>
    ((add_portfolio_data acc.1 dt.1 dt.2).1,
     acc.2 ++ [(add_portfolio_data acc.1 dt.1 dt.2).2])) (s, [])

/-- The lockstep invariant of the store: as many embeddings as metadata
records and as many index vectors (`index.ntotal`) as embeddings. -/
def inSync (s : VectorStore) : Prop :=
  s.embeddings.length = s.metadata.length ∧
  s.indexVecs.length = s.embeddings.length

/-- The empty file system. -/
def emptyFS : FileSystem := ⟨fun _ => none, fun _ => none⟩

/-- The `expected_sheets` list of `load_excel_file`. -/
def expected_sheets : List String :=
  ["Portfolio_Overview", "Holdings_Detail", "Historical_Performance",
   "Benchmarks", "Risk_Metrics", "Cash_Flows", "Market_Data"]

/-- The validation loop of `load_excel_file`: the first expected sheet
missing from the workbook, in the order of `expected_sheets`. -/
def findMissingSheet (expected wb : List String) : Option String :=
  expected.find? (fun sheet => decide (sheet ∉ wb))

/-- Sheet validation of `load_excel_file`: `ValueError` on the first
missing required sheet, success otherwise. -/
def validateSheets (wb : List String) : Except String Unit :=
  match findMissingSheet expected_sheets wb with
  | some sheet => .error ("Missing required sheet: " ++ sheet)
  | none => .ok ()

/-- One row of the `Holdings_Detail` sheet (the columns touched by
`_clean_data` and `_calculate_metrics`). -/
structure HoldingsRow where
  Asset_Name : String
  Ticker_Symbol : String
  Sector : String
  Market_Value : Rat
  Units_Held : Rat
  Average_Cost : Rat
  Current_Price : Rat
  Weight_Percent : Rat
  Dividend_Yield : Rat
deriving DecidableEq

/-- Model of `nlargest(10, 'Market_Value')`: it sorts descending by `Market_Value`
(keeping earlier rows first on ties) and keeps the first 10. -/
def holdingsSortedDesc (hs : List HoldingsRow) : List HoldingsRow :=
  hs.mergeSort (fun a b => decide (b.Market_Value ≤ a.Market_Value))

/-- The column selection applied to the top rows. -/
def projectTopHolding (h : HoldingsRow) : TopHoldingRec :=
  ⟨h.Asset_Name, h.Ticker_Symbol, h.Market_Value, h.Weight_Percent, h.Sector⟩

/-- The `top_holdings` aggregate of `_calculate_metrics`. -/
def top_holdings (hs : List HoldingsRow) : List TopHoldingRec :=
  ((holdingsSortedDesc hs).take 10).map projectTopHolding

/-- The `sector_allocation` aggregate of `_calculate_metrics`:
`groupby('Sector')['Market_Value'].sum()` — one entry per distinct
sector carrying the sum of its holdings' market values — then
`.sort_values(ascending=False)`. -/
def sector_allocation (hs : List HoldingsRow) : List (String × Rat) :=
  (((hs.map (fun h => h.Sector)).dedup).map (fun sec =>
      (sec, ((hs.filter (fun h => h.Sector = sec)).map
        (fun h => h.Market_Value)).sum))).mergeSort
    (fun a b => decide (b.2 ≤ a.2))

/-- One row of the `Historical_Performance` sheet. -/
structure PerfRow where
  Date : Int
  Portfolio_Value : Rat
  Cumulative_Return : Rat
  Daily_Return : Rat
  Volatility : Rat
  Sharpe_Ratio : Rat
  Max_Drawdown : Rat
  Active_Return : Rat
deriving DecidableEq

/-- One row of the `Risk_Metrics` sheet. -/
structure RiskRow where
  Date : Int
  Portfolio_Beta : Rat
  VaR_95 : Rat
  CVaR_95 : Rat
  Tracking_Error : Rat
  Correlation_Benchmark : Rat
  Concentration_Risk : Rat
  Liquidity_Score : Rat
deriving DecidableEq

/-- Model of `_clean_data` on a time-series sheet: `df.sort_values('Date')`,
ascending. -/
def sortByDate (dateOf : α → Int) (rows : List α) : List α :=
  rows.mergeSort (fun a b => decide (dateOf a ≤ dateOf b))

/-- The `performance_summary` dictionary of `_calculate_metrics`. -/
structure PerformanceSummaryOut where
  current_value : Rat
  total_return : Rat
  daily_return : Rat
  volatility : Rat
  sharpe_ratio : Rat
  max_drawdown : Rat
  active_return : Rat
deriving DecidableEq

/-- Field extraction of `perf.iloc[-1]` into `performance_summary`. -/
def mkPerformanceSummary (r : PerfRow) : PerformanceSummaryOut :=
  ⟨r.Portfolio_Value, r.Cumulative_Return, r.Daily_Return, r.Volatility,
   r.Sharpe_Ratio, r.Max_Drawdown, r.Active_Return⟩

/-- The `performance_summary` aggregate, read off the last row of the cleaned
(sorted-by-date) `Historical_Performance` sheet. -/
def performance_summary (rows : List PerfRow) : Option PerformanceSummaryOut :=
  ((sortByDate (fun r => r.Date) rows).getLast?).map mkPerformanceSummary

/-- The `risk_summary` dictionary of `_calculate_metrics`. -/
structure RiskSummaryOut where
  portfolio_beta : Rat
  var_95 : Rat
  cvar_95 : Rat
  tracking_error : Rat
  correlation_benchmark : Rat
  concentration_risk : Rat
  liquidity_score : Rat
deriving DecidableEq

/-- Field extraction of `risk.iloc[-1]` into `risk_summary`. -/
def mkRiskSummary (r : RiskRow) : RiskSummaryOut :=
  ⟨r.Portfolio_Beta, r.VaR_95, r.CVaR_95, r.Tracking_Error,
   r.Correlation_Benchmark, r.Concentration_Risk, r.Liquidity_Score⟩

/-- The `risk_summary` aggregate, read off the last row of the cleaned (sorted-by-date)
`Risk_Metrics` sheet. -/
def risk_summary (rows : List RiskRow) : Option RiskSummaryOut :=
  ((sortByDate (fun r => r.Date) rows).getLast?).map mkRiskSummary

/-- One structured recommendation record. -/
structure Recommendation where
  title : String
  description : String
  priority : String
  rationale : String
  impact : String
deriving DecidableEq, Inhabited

/-- A recommendation being built by the line loop; text accumulates as
character lists. -/
structure RecBuild where
  title : List Char
  description : List Char
  priority : String
  rationale : List Char
  impact : List Char
deriving DecidableEq, Inhabited

/-- Python condition `line[0].isdigit() and '.' in line[:3]`. -/
def isNumberedLine (line : List Char) : Bool :=
  (match line with
   | [] => false
   | c :: _ => c.isDigit) &&
  ((line.take 3).contains '.')

/-- Python expression `line.split('.', 1)[1]`: everything after the first dot. -/
def afterFirstDot (l : List Char) : List Char :=
  (l.dropWhile (fun c => c ≠ '.')).drop 1

/-- One iteration of the line loop of `_parse_recommendations`; the state
is the accumulated list and the (possibly absent) current record. -/
def stepLine (st : List RecBuild × Option RecBuild)
    (raw : List Char) : List RecBuild × Option RecBuild :=
  let line := trimChars raw
  if line = [] then st
  else if isNumberedLine line then
    (st.1 ++ st.2.toList,
     some { title := trimChars (afterFirstDot line), description := [],
            priority := "Medium", rationale := [], impact := [] })
  else
    match st.2 with
    | none => st
    | some cur =>
      if containsSeq "priority".toList (toLowerChars line) then
        if containsSeq "high".toList (toLowerChars line) then
          (st.1, some { cur with priority := "High" })
        else if containsSeq "low".toList (toLowerChars line) then
          (st.1, some { cur with priority := "Low" })
        else (st.1, some cur)
      else
        (st.1, some { cur with
          description := cur.description ++ [' '] ++ line,
          rationale := cur.rationale ++ [' '] ++ line })

/-- The cleanup pass of `_parse_recommendations`: strip, fall back to
the title for an empty description and to the description for an empty
rationale, and render the final record. -/
def cleanupRec (r : RecBuild) : Recommendation :=
  let d0 := trimChars r.description
  let ra0 := trimChars r.rationale
  let d := if d0 = [] then r.title else d0
  let ra := if ra0 = [] then d else ra0
  ⟨String.mk r.title, String.mk d, r.priority, String.mk ra,
   String.mk r.impact⟩

/-- Model of `_parse_recommendations`: split into lines, run the loop, append the
pending record, clean up, and keep at most 7 records. -/
def _parse_recommendations (recommendations_text : String) :
    List Recommendation :=
  let st := (splitLines recommendations_text.toList).foldl stepLine ([], none)
  ((st.1 ++ st.2.toList).map cleanupRec).take 7

/-- The priorities a record can carry. -/
def priorityOKB (r : RecBuild) : Prop :=
  r.priority = "High" ∨ r.priority = "Medium" ∨ r.priority = "Low"

/-- The `performance_summary` dict as read by the frontend utils. -/
structure UtilsPerf where
  total_return : Option Rat := none
  volatility : Option Rat := none
  max_drawdown : Option Rat := none
deriving DecidableEq

/-- One holding dict as read by `calculate_portfolio_metrics`. -/
structure UtilsHolding where
  Weight_Percent : Option Rat := none
deriving DecidableEq

/-- The `holdings_data` dict. -/
structure HoldingsDataIn where
  top_holdings : List UtilsHolding := []
  sector_allocation : List (String × Rat) := []
deriving DecidableEq

/-- The input dictionary of `calculate_portfolio_metrics`. -/
structure UtilsData where
  performance_summary : Option UtilsPerf := none
  holdings_data : Option HoldingsDataIn := none
deriving DecidableEq

/-- A Python float that is either finite or `float('inf')`. -/
inductive ExtRat where
  | val (q : Rat)
  | posInf
deriving DecidableEq

/-- The metrics dictionary built by `calculate_portfolio_metrics`; keys
absent from the dict are `none`. -/
structure PortfolioMetrics where
  return_volatility_ratio : Option Rat := none
  recovery_factor : Option ExtRat := none
  top_5_concentration : Option Rat := none
  top_10_concentration : Option Rat := none
  sector_herfindahl : Option Rat := none
deriving DecidableEq

/-- Model of `calculate_portfolio_metrics`: ratio guarded by `volatility > 0`,
recovery factor guarded by `max_drawdown < 0` (else `float('inf')`),
concentrations over the top 5/10 holdings, and the sector Herfindahl
index guarded by a nonempty allocation with positive total. -/
def calculate_portfolio_metrics (data : UtilsData) : PortfolioMetrics :=
  let m0 : PortfolioMetrics := {}
  let m1 :=
    match data.performance_summary with
    | none => m0
    | some perf =>
      let total_return := perf.total_return.getD 0
      let volatility := perf.volatility.getD 0
      let max_drawdown := perf.max_drawdown.getD 0
      { m0 with
        return_volatility_ratio :=
          some (if volatility > 0 then total_return / volatility else 0)
        recovery_factor :=
          some (if max_drawdown < 0 then
              ExtRat.val (total_return / |max_drawdown|)
            else ExtRat.posInf) }
  match data.holdings_data with
  | none => m1
  | some holdings =>
    if holdings.top_holdings.isEmpty then m1
    else
      let m2 := { m1 with
        top_5_concentration := some (((holdings.top_holdings.take 5).map
          (fun h => h.Weight_Percent.getD 0)).sum)
        top_10_concentration := some (((holdings.top_holdings.take 10).map
          (fun h => h.Weight_Percent.getD 0)).sum) }
      if holdings.sector_allocation.isEmpty then m2
      else
        let total_value := (holdings.sector_allocation.map Prod.snd).sum
        if total_value > 0 then
          let herfindahl := ((holdings.sector_allocation.map
            (fun p => (p.2 / total_value) ^ 2)).sum)
          { m2 with sector_herfindahl := some herfindahl }
        else m2

/-! ## Theorems -/

@[simp] theorem withIdx_nil (i : Nat) : withIdx i ([] : List α) = [] := rfl

@[simp] theorem withIdx_cons (i : Nat) (a : α) (as : List α) :
    withIdx i (a :: as) = (a, i) :: withIdx (i + 1) as := rfl

@[simp] theorem length_withIdx (i : Nat) (l : List α) :
    (withIdx i l).length = l.length := by
  induction l generalizing i with
  | nil => rfl
  | cons a as ih => simp [withIdx, ih]

theorem mem_withIdx {i : Nat} {l : List α} {p : α × Nat} :
    p ∈ withIdx i l ↔ i ≤ p.2 ∧ l[p.2 - i]? = some p.1 := by
  induction l generalizing i with
  | nil => simp [withIdx]
  | cons a as ih =>
    simp only [withIdx, List.mem_cons, ih]
    constructor
    · rintro (rfl | ⟨h1, h2⟩)
      · simp
      · refine ⟨by omega, ?_⟩
        have : p.2 - i = (p.2 - (i + 1)) + 1 := by omega
        rw [this]
        simpa using h2
    · rintro ⟨h1, h2⟩
      rcases Nat.eq_or_lt_of_le h1 with heq | hlt
      · left
        have : p.2 - i = 0 := by omega
        rw [this] at h2
        simp at h2
        obtain ⟨p1, p2⟩ := p
        simp_all
      · right
        refine ⟨by omega, ?_⟩
        have : p.2 - i = (p.2 - (i + 1)) + 1 := by omega
        rw [this] at h2
        simpa using h2

theorem mem_withIdx_zero {l : List α} {p : α × Nat} :
    p ∈ withIdx 0 l ↔ l[p.2]? = some p.1 := by
  simp [mem_withIdx]

theorem map_snd_withIdx (i : Nat) (l : List α) :
    (withIdx i l).map Prod.snd = List.range' i l.length := by
  induction l generalizing i with
  | nil => rfl
  | cons a as ih => simp [withIdx, List.range'_succ, ih]

theorem map_fst_withIdx (i : Nat) (l : List α) :
    (withIdx i l).map Prod.fst = l := by
  induction l generalizing i with
  | nil => rfl
  | cons a as ih => simp [withIdx, ih]

theorem nodup_map_snd_withIdx (i : Nat) (l : List α) :
    ((withIdx i l).map Prod.snd).Nodup := by
  rw [map_snd_withIdx]; exact List.nodup_range' i l.length

theorem getElem?_withIdx (i : Nat) (l : List α) (j : Nat) :
    (withIdx i l)[j]? = l[j]?.map (fun a => (a, i + j)) := by
  induction l generalizing i j with
  | nil => simp [withIdx]
  | cons a as ih =>
    cases j with
    | zero => simp [withIdx]
    | succ j =>
      simp only [withIdx, List.getElem?_cons_succ, ih]
      have h : i + 1 + j = i + (j + 1) := by omega
      rw [h]

/-- If `f` is `some` on every element, `filterMap f` is a `map`. -/
theorem filterMap_eq_map_of_forall {l : List β} {f : β → Option γ} {g : β → γ}
    (h : ∀ b ∈ l, f b = some (g b)) : l.filterMap f = l.map g := by
  induction l with
  | nil => rfl
  | cons a as ih =>
    simp only [List.filterMap_cons, List.map_cons, h a (List.mem_cons_self a as)]
    rw [ih fun b hb => h b (List.mem_cons_of_mem a hb)]

theorem range'_map_succ (s n : Nat) :
    (List.range' s n).map (· + 1) = List.range' (s + 1) n := by
  induction n generalizing s with
  | zero => rfl
  | succ n ih => simp [List.range'_succ, ih]

theorem faissSearch_eq (vecs : List (List Rat)) (q : List Rat) (k : Nat) :
    faissSearch vecs q k = ((scoredPairs vecs q).mergeSort scoreGE).take k := rfl

theorem mem_scoredPairs {vecs : List (List Rat)} {q : List Rat} {p : Rat × Nat} :
    p ∈ scoredPairs vecs q ↔
      ∃ v, vecs[p.2]? = some v ∧ p.1 = innerProduct q v := by
  rw [scoredPairs, mem_withIdx_zero, List.getElem?_map]
  cases h : vecs[p.2]? <;> simp [eq_comm]

theorem sorted_scored (vecs : List (List Rat)) (q : List Rat) :
    ((scoredPairs vecs q).mergeSort scoreGE).Pairwise
      (fun a b : Rat × Nat => b.1 ≤ a.1) := by
  have h := @List.sorted_mergeSort _ scoreGE
    (fun a b c hab hbc => by
      simp only [scoreGE, decide_eq_true_eq] at *; exact le_trans hbc hab)
    (fun a b => by
      simp only [scoreGE, Bool.or_eq_true, decide_eq_true_eq]; exact le_total b.1 a.1)
    (scoredPairs vecs q)
  exact h.imp fun hab => by simpa [scoreGE] using hab

theorem length_faissSearch (vecs : List (List Rat)) (q : List Rat) (k : Nat) :
    (faissSearch vecs q k).length = min k vecs.length := by
  rw [faissSearch_eq, List.length_take, List.length_mergeSort]
  simp [scoredPairs]

theorem mem_of_mem_faissSearch {vecs : List (List Rat)} {q : List Rat} {k : Nat}
    {p : Rat × Nat} (hp : p ∈ faissSearch vecs q k) :
    ∃ v, vecs[p.2]? = some v ∧ p.1 = innerProduct q v := by
  rw [← mem_scoredPairs]
  rw [faissSearch_eq] at hp
  exact (List.mergeSort_perm (scoredPairs vecs q) scoreGE).mem_iff.mp
    (List.mem_of_mem_take hp)

theorem pairwise_faissSearch (vecs : List (List Rat)) (q : List Rat) (k : Nat) :
    (faissSearch vecs q k).Pairwise (fun a b : Rat × Nat => b.1 ≤ a.1) := by
  rw [faissSearch_eq]
  exact (sorted_scored vecs q).sublist (List.take_sublist _ _)

theorem nodup_snd_faissSearch (vecs : List (List Rat)) (q : List Rat) (k : Nat) :
    ((faissSearch vecs q k).map Prod.snd).Nodup := by
  have hperm : List.Perm (((scoredPairs vecs q).mergeSort scoreGE).map Prod.snd)
      ((scoredPairs vecs q).map Prod.snd) :=
    (List.mergeSort_perm (scoredPairs vecs q) scoreGE).map Prod.snd
  have hnod : (((scoredPairs vecs q).mergeSort scoreGE).map Prod.snd).Nodup :=
    hperm.nodup_iff.mpr (nodup_map_snd_withIdx 0 _)
  rw [faissSearch_eq]
  exact hnod.sublist ((List.take_sublist _ _).map Prod.snd)

/-- Top-k property: any stored vector whose id was not selected has an
inner product no larger than any selected score. -/
theorem faissSearch_topk {vecs : List (List Rat)} {q : List Rat} {k : Nat}
    {p : Rat × Nat} {j : Nat} {v : List Rat}
    (hp : p ∈ faissSearch vecs q k) (hv : vecs[j]? = some v)
    (hnot : j ∉ (faissSearch vecs q k).map Prod.snd) :
    innerProduct q v ≤ p.1 := by
  set sortedL := (scoredPairs vecs q).mergeSort scoreGE with hsorted
  have hmemj : ((innerProduct q v, j) : Rat × Nat) ∈ sortedL := by
    rw [hsorted, (List.mergeSort_perm (scoredPairs vecs q) scoreGE).mem_iff]
    exact mem_scoredPairs.mpr ⟨v, hv, rfl⟩
  have hsplit : sortedL = sortedL.take k ++ sortedL.drop k :=
    (List.take_append_drop k sortedL).symm
  have hpw : (sortedL.take k ++ sortedL.drop k).Pairwise
      (fun a b : Rat × Nat => b.1 ≤ a.1) := by
    rw [← hsplit]; exact sorted_scored vecs q
  rcases (List.mem_append.mp (hsplit ▸ hmemj)) with hin | hin
  · exfalso
    exact hnot (by
      rw [faissSearch_eq]
      exact List.mem_map.mpr ⟨(innerProduct q v, j), hin, rfl⟩)
  · have := (List.pairwise_append.mp hpw).2.2 p
      (by rw [faissSearch_eq] at hp; exact hp) (innerProduct q v, j) hin
    exact this

/-- On a consistent, trained, nonempty store the guard passes and every
id returned by the index is in range, so the `filterMap` keeps all
results. -/
theorem search_eq_map (s : VectorStore) (q : PortfolioData) (k : Nat)
    (htr : s.is_trained = true) (hn : 1 ≤ s.embeddings.length)
    (hsync : s.indexVecs.length = s.embeddings.length)
    (hmeta : s.metadata.length = s.embeddings.length) :
    search_similar_portfolios s q k =
      (withIdx 0 (searchSel s q k)).map fun pr =>
        ⟨pr.1.1, s.metadata.getD pr.1.2 default, pr.2 + 1⟩ := by
  have hc : ¬(s.is_trained = false ∨ s.embeddings.length = 0) := by
    rintro (h | h)
    · rw [htr] at h; exact absurd h (by decide)
    · omega
  unfold search_similar_portfolios
  rw [if_neg hc]
  apply filterMap_eq_map_of_forall
  intro pr hpr
  have h1 : pr.1 ∈ searchSel s q k :=
    List.getElem?_mem (mem_withIdx_zero.mp hpr)
  obtain ⟨v, hv, -⟩ := mem_of_mem_faissSearch h1
  have hlt : pr.1.2 < s.indexVecs.length := (List.getElem?_eq_some.mp hv).1
  have hlt2 : pr.1.2 < s.metadata.length := by omega
  rw [List.getElem?_eq_getElem hlt2]
  simp [List.getD_eq_getElem?_getD, List.getElem?_eq_getElem hlt2, searchSel]

theorem map_snd_succ_withIdx (i : Nat) (l : List α) :
    (withIdx i l).map (fun p => p.2 + 1) = List.range' (i + 1) l.length := by
  induction l generalizing i with
  | nil => rfl
  | cons a as ih => simp [withIdx, List.range'_succ, ih]

theorem searchSel_def (s : VectorStore) (q : PortfolioData) (k : Nat) :
    searchSel s q k = faissSearch s.indexVecs (_create_embeddings s.dimension q)
      (min k s.embeddings.length) := rfl

/-- Claim C2. For every input data dictionary (any of the four keys may be
missing), `_create_embeddings` returns a vector of length exactly the
store's dimension, obtained by padding the extracted features with zeros
or truncating them to that length; when feature extraction raises, it
returns the all-zero vector of that length. -/
theorem C2_create_embeddings_shape (dim : Nat) (d : PortfolioData) :
    (_create_embeddings dim d).length = dim ∧
    (sectorDivByZero d = false →
      (∀ i : Nat, i < dim → i < (embeddingFeatures d).length →
        (_create_embeddings dim d)[i]? = (embeddingFeatures d)[i]?) ∧
      (∀ i : Nat, (embeddingFeatures d).length ≤ i → i < dim →
        (_create_embeddings dim d)[i]? = some 0)) ∧
    (sectorDivByZero d = true →
      _create_embeddings dim d = List.replicate dim 0) := by
  refine ⟨?_, fun hok => ⟨fun i hi hif => ?_, fun i hif hi => ?_⟩, fun hbad => ?_⟩
  · unfold _create_embeddings
    split
    · simp
    · simp only [List.length_take, List.length_append, List.length_replicate]
      omega
  · rw [_create_embeddings, if_neg (by simp [hok])]
    rw [List.getElem?_take_of_lt hi, List.getElem?_append, if_pos hif]
  · rw [_create_embeddings, if_neg (by simp [hok])]
    rw [List.getElem?_take_of_lt hi, List.getElem?_append_right hif]
    exact List.getElem?_replicate_of_lt (by omega)
  · rw [_create_embeddings, if_pos hbad]

/-- Witness for C2 at the all-defaults dictionary and dimension 3: the
result has length 3 and position 0 is a padded zero. -/
theorem C2_witness :
    (_create_embeddings 3 {}).length = 3 ∧
    (_create_embeddings 3 {})[0]? = some 0 := by
  refine ⟨(C2_create_embeddings_shape 3 {}).1, ?_⟩
  exact ((C2_create_embeddings_shape 3 {}).2.1 (by decide)).2 0
    (by decide) (by decide)

/-- Claim C1. On any consistent trained store holding `n ≥ 1` snapshots,
for any query dictionary and `k ≥ 1`, `search_similar_portfolios`
returns exactly `min k n` results: ranks are `1, 2, …`; scores are
descending; the `i`-th result pairs the metadata of a stored snapshot
with the inner product of that snapshot's feature vector against the
query's; the selected ids are distinct and every non-selected snapshot's
inner product is at most every returned score.  A store with no
snapshots yields the empty list. -/
theorem C1_search_top_k
    (s : VectorStore) (q : PortfolioData) (k : Nat)
    (hsync : s.indexVecs = s.embeddings)
    (hmeta : s.metadata.length = s.embeddings.length)
    (htr : s.is_trained = true)
    (hn : 1 ≤ s.embeddings.length) (hk : 1 ≤ k) :
    (search_similar_portfolios s q k).length = min k s.embeddings.length ∧
    (search_similar_portfolios s q k).map (fun r => r.rank) =
      List.range' 1 (min k s.embeddings.length) ∧
    (search_similar_portfolios s q k).Pairwise
      (fun a b => b.similarity_score ≤ a.similarity_score) ∧
    ((searchSel s q k).map Prod.snd).Nodup ∧
    (∀ i : Nat, i < min k s.embeddings.length →
      ∃ j v m, s.embeddings[j]? = some v ∧ s.metadata[j]? = some m ∧
        (searchSel s q k)[i]? =
          some (innerProduct (_create_embeddings s.dimension q) v, j) ∧
        (search_similar_portfolios s q k)[i]? =
          some ⟨innerProduct (_create_embeddings s.dimension q) v, m, i + 1⟩) ∧
    (∀ r ∈ search_similar_portfolios s q k, ∀ j v, s.embeddings[j]? = some v →
      j ∉ (searchSel s q k).map Prod.snd →
      innerProduct (_create_embeddings s.dimension q) v ≤ r.similarity_score) ∧
    (∀ s' : VectorStore, s'.embeddings.length = 0 →
      search_similar_portfolios s' q k = []) := by
  have hlen_sync : s.indexVecs.length = s.embeddings.length := by rw [hsync]
  have heq := search_eq_map s q k htr hn hlen_sync hmeta
  have hsel_len : (searchSel s q k).length = min k s.embeddings.length := by
    rw [searchSel_def, length_faissSearch, hlen_sync]
    omega
  have hres_len :
      (search_similar_portfolios s q k).length = min k s.embeddings.length := by
    rw [heq, List.length_map, length_withIdx, hsel_len]
  refine ⟨hres_len, ?_, ?_, ?_, ?_, ?_, ?_⟩
  · rw [heq, List.map_map, ← hsel_len]
    exact map_snd_succ_withIdx 0 _
  · rw [heq, List.pairwise_map]
    have hpw := pairwise_faissSearch s.indexVecs
      (_create_embeddings s.dimension q) (min k s.embeddings.length)
    rw [← searchSel_def, ← map_fst_withIdx 0 (searchSel s q k)] at hpw
    exact List.pairwise_map.mp hpw
  · rw [searchSel_def]
    exact nodup_snd_faissSearch _ _ _
  · intro i hi
    have hi' : i < (searchSel s q k).length := by omega
    obtain ⟨p, hp⟩ : ∃ p, (searchSel s q k)[i]? = some p :=
      ⟨_, List.getElem?_eq_getElem hi'⟩
    have hpmem : p ∈ searchSel s q k := List.getElem?_mem hp
    rw [searchSel_def] at hpmem
    obtain ⟨v, hv, hscore⟩ := mem_of_mem_faissSearch hpmem
    have hjlt : p.2 < s.indexVecs.length := (List.getElem?_eq_some.mp hv).1
    have hjlt2 : p.2 < s.metadata.length := by omega
    refine ⟨p.2, v, s.metadata.getD p.2 default, ?_, ?_, ?_, ?_⟩
    · rw [← hsync]; exact hv
    · rw [List.getElem?_eq_getElem hjlt2]
      simp [List.getD_eq_getElem?_getD, List.getElem?_eq_getElem hjlt2]
    · rw [hp, ← hscore]
    · rw [heq, List.getElem?_map, getElem?_withIdx, hp]
      simp [← hscore]
  · intro r hr j v hjv hnot
    rw [heq] at hr
    obtain ⟨pr, hprmem, rfl⟩ := List.mem_map.mp hr
    have h1 : pr.1 ∈ searchSel s q k :=
      List.getElem?_mem (mem_withIdx_zero.mp hprmem)
    rw [searchSel_def] at h1
    rw [searchSel_def] at hnot
    have hv' : s.indexVecs[j]? = some v := by rw [hsync]; exact hjv
    exact faissSearch_topk h1 hv' hnot
  · intro s' h0
    simp [search_similar_portfolios, h0]

theorem addAll_characterisation (s : VectorStore)
    (ds : List (PortfolioData × String)) (ids : List Nat) :
    (ds.foldl (fun acc dt =>
        ((add_portfolio_data acc.1 dt.1 dt.2).1,
         acc.2 ++ [(add_portfolio_data acc.1 dt.1 dt.2).2])) (s, ids)) =
      ({ dimension := s.dimension
         indexVecs := s.indexVecs ++
           ds.map (fun dt => _create_embeddings s.dimension dt.1)
         embeddings := s.embeddings ++
           ds.map (fun dt => _create_embeddings s.dimension dt.1)
         metadata := s.metadata ++
           ds.map (fun dt => mkSnapshotMeta dt.1 dt.2)
         is_trained := s.is_trained || !ds.isEmpty },
       ids ++ List.range' s.embeddings.length ds.length) := by
  induction ds generalizing s ids with
  | nil => simp
  | cons d rest ih =>
    simp only [List.foldl_cons]
    rw [ih]
    simp [add_portfolio_data, List.range'_succ]

/-- Claim C7. The store never evicts: after `n` successful adds starting
from an empty store the returned ids are `0, …, n-1` in insertion
order, the store holds exactly the `n` embeddings and metadata records
of the adds (so every previously added vector is still present
unchanged: the state after the first `i` adds is the `i`-prefix), the
index stays equal to the embeddings list, and `get_stats` reports the
full counts.  `search_similar_portfolios`, `get_context_for_query` and
`get_stats` are functions of the state and leave it unchanged. -/
theorem C7_no_eviction (dim : Nat) (ds : List (PortfolioData × String)) :
    (addAll (VectorStore.init dim) ds).2 = List.range ds.length ∧
    (addAll (VectorStore.init dim) ds).1.embeddings =
      ds.map (fun dt => _create_embeddings dim dt.1) ∧
    (addAll (VectorStore.init dim) ds).1.metadata =
      ds.map (fun dt => mkSnapshotMeta dt.1 dt.2) ∧
    (addAll (VectorStore.init dim) ds).1.indexVecs =
      (addAll (VectorStore.init dim) ds).1.embeddings ∧
    (get_stats (addAll (VectorStore.init dim) ds).1).total_vectors = ds.length ∧
    (get_stats (addAll (VectorStore.init dim) ds).1).index_size = ds.length ∧
    (∀ i : Nat,
      (addAll (VectorStore.init dim) (ds.take i)).1.embeddings =
        (addAll (VectorStore.init dim) ds).1.embeddings.take i ∧
      (addAll (VectorStore.init dim) (ds.take i)).1.metadata =
        (addAll (VectorStore.init dim) ds).1.metadata.take i) := by
  have hgen : ∀ l : List (PortfolioData × String),
      addAll (VectorStore.init dim) l =
      ({ dimension := dim
         indexVecs := l.map (fun dt => _create_embeddings dim dt.1)
         embeddings := l.map (fun dt => _create_embeddings dim dt.1)
         metadata := l.map (fun dt => mkSnapshotMeta dt.1 dt.2)
         is_trained := !l.isEmpty },
       List.range' 0 l.length) := by
    intro l
    have := addAll_characterisation (VectorStore.init dim) l []
    simpa [addAll, VectorStore.init] using this
  simp only [hgen]
  refine ⟨by simp [List.range_eq_range'], by simp, by simp, by simp,
    by simp [get_stats], by simp [get_stats], fun i => ?_⟩
  simp [List.map_take]

/-- Claim C8. The lockstep invariant holds initially, is preserved by
`add_portfolio_data` and by a `load_index` of files written by
`save_index` from a consistent store, and every search result pairs the
metadata record at some stored index with the inner-product score of the
index vector at that same index. -/
theorem C8_lockstep_invariant (dim : Nat) (s s₀ : VectorStore)
    (d q : PortfolioData) (t : String) (k : Nat)
    (fs : FileSystem) (p : String) :
    inSync (VectorStore.init dim) ∧
    (inSync s → inSync (add_portfolio_data s d t).1) ∧
    (inSync s₀ → inSync (load_index s (save_index s₀ fs p) p).1) ∧
    (∀ r ∈ search_similar_portfolios s q k,
      ∃ (j : Nat) (v : List Rat) (m : SnapshotMeta),
      s.indexVecs[j]? = some v ∧ s.metadata[j]? = some m ∧
      r.metadata = m ∧
      r.similarity_score = innerProduct (_create_embeddings s.dimension q) v) := by
  refine ⟨⟨rfl, rfl⟩, ?_, ?_, ?_⟩
  · rintro ⟨h1, h2⟩
    refine ⟨?_, ?_⟩ <;> simp [add_portfolio_data, h1, h2]
  · rintro ⟨h1, h2⟩
    simp only [inSync, load_index, save_index, if_pos rfl]
    exact ⟨h1, h2⟩
  · intro r hr
    unfold search_similar_portfolios at hr
    split at hr
    · simp at hr
    · obtain ⟨a, ha, hfa⟩ := List.mem_filterMap.mp hr
      have h1 : a.1 ∈ faissSearch s.indexVecs (_create_embeddings s.dimension q)
          (min k s.embeddings.length) :=
        List.getElem?_mem (mem_withIdx_zero.mp ha)
      obtain ⟨v, hv, hscore⟩ := mem_of_mem_faissSearch h1
      cases hm : s.metadata[a.1.2]? with
      | none => rw [hm] at hfa; simp at hfa
      | some m =>
        rw [hm] at hfa
        simp at hfa
        exact ⟨a.1.2, v, m, hv, hm, by rw [← hfa], by rw [← hfa]; exact hscore⟩

/-- Witness for C8: the invariant after one add, and the shape of the
single search result on that store. -/
theorem C8_witness :
    inSync (VectorStore.init 2) ∧
    inSync (add_portfolio_data (VectorStore.init 2) {} "t").1 := by
  have h := C8_lockstep_invariant 2 (VectorStore.init 2) (VectorStore.init 2)
    {} {} "t" 1 emptyFS "p"
  exact ⟨h.1, h.2.1 ⟨rfl, rfl⟩⟩

/-- Claim C9. Persistence round trip: saving a store and loading from the
same filepath into any store restores the embeddings, metadata,
dimension and `is_trained` flag exactly and returns `True`; loading from
a path with no index file leaves the store unchanged and returns
`False`. -/
theorem C9_save_load_roundtrip (s fresh : VectorStore) (fs : FileSystem)
    (p : String) :
    load_index fresh (save_index s fs p) p =
      ({ dimension := s.dimension, indexVecs := s.indexVecs,
         embeddings := s.embeddings, metadata := s.metadata,
         is_trained := s.is_trained }, true) ∧
    (fs.indexFiles p = none → load_index s fs p = (s, false)) := by
  constructor
  · simp [load_index, save_index]
  · intro h
    simp [load_index, h]

/-- Witness for C9 at concrete stores and the empty file system. -/
theorem C9_witness :
    load_index (VectorStore.init 2) (save_index (VectorStore.init 3) emptyFS "f") "f" =
      ({ dimension := 3, indexVecs := [], embeddings := [], metadata := [],
         is_trained := false }, true) ∧
    load_index (VectorStore.init 2) emptyFS "f" = (VectorStore.init 2, false) := by
  have h := C9_save_load_roundtrip (VectorStore.init 3) (VectorStore.init 2)
    emptyFS "f"
  have h2 := C9_save_load_roundtrip (VectorStore.init 2) (VectorStore.init 2)
    emptyFS "f"
  exact ⟨h.1, h2.2 rfl⟩

/-- Witness for C1: a store built from one add returns exactly one
result for `k = 1`. -/
theorem C1_witness :
    (search_similar_portfolios
      (add_portfolio_data (VectorStore.init 4) {} "t").1 {} 1).length = 1 := by
  have h := (C1_search_top_k ((add_portfolio_data (VectorStore.init 4) {} "t").1)
    {} 1 rfl rfl rfl (by decide) (by decide)).1
  rw [show ((add_portfolio_data (VectorStore.init 4) {} "t").1).embeddings.length
    = 1 from rfl] at h
  exact h.trans (by decide)

/-- Sorting via `sort_values('Date')` leaves the rows pairwise ascending in date. -/
theorem sortByDate_pairwise (dateOf : α → Int) (rows : List α) :
    (sortByDate dateOf rows).Pairwise (fun a b => dateOf a ≤ dateOf b) := by
  have := @List.sorted_mergeSort _ (fun a b => decide (dateOf a ≤ dateOf b))
    (fun a b c hab hbc => by
      simp only [decide_eq_true_eq] at *; exact le_trans hab hbc)
    (fun a b => by
      simp only [Bool.or_eq_true, decide_eq_true_eq]
      exact le_total (dateOf a) (dateOf b))
    rows
  exact this.imp fun hab => by simpa using hab

/-- The last row of a date-sorted nonempty list exists, belongs to the
input, and carries the maximal date. -/
theorem getLast?_sortByDate_max (dateOf : α → Int) (rows : List α)
    (h : rows ≠ []) :
    ∃ r, (sortByDate dateOf rows).getLast? = some r ∧ r ∈ rows ∧
      ∀ r' ∈ rows, dateOf r' ≤ dateOf r := by
  have hperm := List.mergeSort_perm rows (fun a b => decide (dateOf a ≤ dateOf b))
  have hne : sortByDate dateOf rows ≠ [] := by
    rw [sortByDate]
    intro hcon
    exact h (List.eq_nil_of_length_eq_zero (by
      have := hperm.length_eq
      rw [hcon] at this
      simpa using this.symm))
  have hpw : (sortByDate dateOf rows).Pairwise
      (fun a b => dateOf a ≤ dateOf b) := sortByDate_pairwise dateOf rows
  refine ⟨(sortByDate dateOf rows).getLast hne,
    List.getLast?_eq_getLast _ hne, ?_, ?_⟩
  · rw [sortByDate] at *
    exact hperm.mem_iff.mp (List.getLast_mem hne)
  · intro r' hr'
    have hr'' : r' ∈ sortByDate dateOf rows := by
      rw [sortByDate]
      exact hperm.mem_iff.mpr hr'
    have hsplit := List.dropLast_append_getLast hne
    rw [← hsplit] at hr'' hpw
    rcases List.mem_append.mp hr'' with hin | hin
    · exact (List.pairwise_append.mp hpw).2.2 r' hin _ (List.mem_singleton_self _)
    · rw [List.mem_singleton.mp hin]

/-- Claim C3. The function `load_excel_file` raises a `ValueError` naming the missing
sheet whenever one of the seven required sheets is absent, and the sheet
validation accepts every workbook containing all seven. -/
theorem C3_sheet_validation (wb : List String) :
    ((∃ sh ∈ expected_sheets, sh ∉ wb) →
      ∃ sh ∈ expected_sheets, sh ∉ wb ∧
        validateSheets wb = .error ("Missing required sheet: " ++ sh)) ∧
    ((∀ sh ∈ expected_sheets, sh ∈ wb) → validateSheets wb = .ok ()) := by
  constructor
  · intro hmiss
    cases hfind : findMissingSheet expected_sheets wb with
    | none =>
      exfalso
      obtain ⟨sh, hsh, hnot⟩ := hmiss
      rw [findMissingSheet] at hfind
      have := List.find?_eq_none.mp hfind sh hsh
      simp only [decide_eq_true_eq] at this
      exact this hnot
    | some sh =>
      rw [findMissingSheet] at hfind
      have hp := List.find?_some hfind
      have hmem := List.mem_of_find?_eq_some hfind
      simp only [decide_eq_true_eq] at hp
      refine ⟨sh, hmem, hp, ?_⟩
      rw [validateSheets, findMissingSheet, hfind]
  · intro hall
    have hnone : findMissingSheet expected_sheets wb = none := by
      rw [findMissingSheet]
      apply List.find?_eq_none.mpr
      intro sh hsh
      simp [hall sh hsh]
    rw [validateSheets, hnone]

/-- Witness for C3: a workbook with only `Portfolio_Overview` fails on a
named missing sheet; the complete workbook passes. -/
theorem C3_witness :
    (∃ sh ∈ expected_sheets, sh ∉ (["Portfolio_Overview"] : List String) ∧
      validateSheets ["Portfolio_Overview"] =
        .error ("Missing required sheet: " ++ sh)) ∧
    validateSheets expected_sheets = .ok () :=
  ⟨(C3_sheet_validation ["Portfolio_Overview"]).1 (by decide),
   (C3_sheet_validation expected_sheets).2 (fun _ hs => hs)⟩

/-- Claim C4. The aggregate `top_holdings` keeps the `min 10 n` rows with the largest
`Market_Value` (projected to the five selected columns): the sorted
order is a permutation of the holdings, every kept row dominates every
dropped row, and `sector_allocation` assigns each sector the sum of the
market values of its holdings, one entry per distinct sector. -/
theorem C4_top_holdings_sector_allocation (hs : List HoldingsRow) :
    (top_holdings hs).length = min 10 hs.length ∧
    (∀ r ∈ top_holdings hs, ∃ h ∈ hs, r = projectTopHolding h) ∧
    List.Perm (holdingsSortedDesc hs) hs ∧
    (∀ x ∈ (holdingsSortedDesc hs).take 10,
     ∀ y ∈ (holdingsSortedDesc hs).drop 10,
      y.Market_Value ≤ x.Market_Value) ∧
    (∀ p ∈ sector_allocation hs,
      p.2 = ((hs.filter (fun h => h.Sector = p.1)).map
        (fun h => h.Market_Value)).sum) ∧
    (∀ h ∈ hs, ∃ p ∈ sector_allocation hs, p.1 = h.Sector) ∧
    ((sector_allocation hs).map Prod.fst).Nodup := by
  have hperm : List.Perm (holdingsSortedDesc hs) hs :=
    List.mergeSort_perm hs _
  have hpw : (holdingsSortedDesc hs).Pairwise
      (fun a b => b.Market_Value ≤ a.Market_Value) := by
    have := @List.sorted_mergeSort _
      (fun a b : HoldingsRow => decide (b.Market_Value ≤ a.Market_Value))
      (fun a b c hab hbc => by
        simp only [decide_eq_true_eq] at *; exact le_trans hbc hab)
      (fun a b => by
        simp only [Bool.or_eq_true, decide_eq_true_eq]
        exact le_total b.Market_Value a.Market_Value)
      hs
    exact this.imp fun hab => by simpa using hab
  have hsecperm : List.Perm (sector_allocation hs)
      (((hs.map (fun h => h.Sector)).dedup).map (fun sec =>
        (sec, ((hs.filter (fun h => h.Sector = sec)).map
          (fun h => h.Market_Value)).sum))) :=
    List.mergeSort_perm _ _
  refine ⟨?_, ?_, hperm, ?_, ?_, ?_, ?_⟩
  · rw [top_holdings, List.length_map, List.length_take, holdingsSortedDesc,
      List.length_mergeSort]
  · intro r hr
    obtain ⟨h, hh, rfl⟩ := List.mem_map.mp hr
    exact ⟨h, hperm.mem_iff.mp (List.mem_of_mem_take hh), rfl⟩
  · intro x hx y hy
    have hsplit := List.take_append_drop 10 (holdingsSortedDesc hs)
    rw [← hsplit] at hpw
    exact (List.pairwise_append.mp hpw).2.2 x hx y hy
  · intro p hp
    obtain ⟨sec, hsec, rfl⟩ := List.mem_map.mp (hsecperm.mem_iff.mp hp)
    rfl
  · intro h hh
    have hmemsec : h.Sector ∈ (hs.map (fun h => h.Sector)).dedup :=
      List.mem_dedup.mpr (List.mem_map.mpr ⟨h, hh, rfl⟩)
    exact ⟨(h.Sector, ((hs.filter (fun h' => h'.Sector = h.Sector)).map
        (fun h' => h'.Market_Value)).sum),
      hsecperm.mem_iff.mpr (List.mem_map.mpr ⟨h.Sector, hmemsec, rfl⟩), rfl⟩
  · have h1 := hsecperm.map Prod.fst
    rw [List.map_map] at h1
    have hfun : (Prod.fst ∘ fun sec : String =>
        (sec, ((hs.filter (fun h => h.Sector = sec)).map
          (fun h => h.Market_Value)).sum)) = id := by
      funext x; rfl
    rw [hfun, List.map_id] at h1
    exact h1.nodup_iff.mpr (List.nodup_dedup _)

/-- Witness for C4 on a two-row holdings table in one sector. -/
theorem C4_witness :
    (top_holdings [⟨"A", "TA", "Tech", 5, 0, 0, 0, 0, 0⟩,
                   ⟨"B", "TB", "Tech", 3, 0, 0, 0, 0, 0⟩]).length = min 10 2 ∧
    ∃ p ∈ sector_allocation [⟨"A", "TA", "Tech", 5, 0, 0, 0, 0, 0⟩,
                             ⟨"B", "TB", "Tech", 3, 0, 0, 0, 0, 0⟩],
      p.1 = "Tech" := by
  have h := C4_top_holdings_sector_allocation
    [⟨"A", "TA", "Tech", 5, 0, 0, 0, 0, 0⟩, ⟨"B", "TB", "Tech", 3, 0, 0, 0, 0, 0⟩]
  exact ⟨h.1, h.2.2.2.2.2.1 ⟨"A", "TA", "Tech", 5, 0, 0, 0, 0, 0⟩ (by decide)⟩

/-- Claim C5. Cleaning sorts each time-series sheet ascending by `Date`;
`performance_summary` and `risk_summary` read the last row of the sorted
sheet, which is a row of the sheet carrying its latest date. -/
theorem C5_latest_row_summaries (perfRows : List PerfRow)
    (riskRows : List RiskRow) :
    (sortByDate (fun r => r.Date) perfRows).Pairwise
      (fun a b => a.Date ≤ b.Date) ∧
    List.Perm (sortByDate (fun r => r.Date) perfRows) perfRows ∧
    (sortByDate (fun r => r.Date) riskRows).Pairwise
      (fun a b => a.Date ≤ b.Date) ∧
    List.Perm (sortByDate (fun r => r.Date) riskRows) riskRows ∧
    (perfRows ≠ [] → ∃ r ∈ perfRows,
      (∀ r' ∈ perfRows, r'.Date ≤ r.Date) ∧
      (sortByDate (fun r => r.Date) perfRows).getLast? = some r ∧
      performance_summary perfRows = some (mkPerformanceSummary r)) ∧
    (riskRows ≠ [] → ∃ r ∈ riskRows,
      (∀ r' ∈ riskRows, r'.Date ≤ r.Date) ∧
      (sortByDate (fun r => r.Date) riskRows).getLast? = some r ∧
      risk_summary riskRows = some (mkRiskSummary r)) := by
  refine ⟨sortByDate_pairwise _ _, List.mergeSort_perm _ _,
    sortByDate_pairwise _ _, List.mergeSort_perm _ _, ?_, ?_⟩
  · intro hne
    obtain ⟨r, hlast, hmem, hmax⟩ :=
      getLast?_sortByDate_max (fun r : PerfRow => r.Date) perfRows hne
    refine ⟨r, hmem, hmax, hlast, ?_⟩
    rw [performance_summary, hlast]
    rfl
  · intro hne
    obtain ⟨r, hlast, hmem, hmax⟩ :=
      getLast?_sortByDate_max (fun r : RiskRow => r.Date) riskRows hne
    refine ⟨r, hmem, hmax, hlast, ?_⟩
    rw [risk_summary, hlast]
    rfl

/-- Witness for C5 on singleton performance and risk sheets. -/
theorem C5_witness :
    (∃ r ∈ [(⟨1, 2, 3, 4, 5, 6, 7, 8⟩ : PerfRow)],
      (∀ r' ∈ [(⟨1, 2, 3, 4, 5, 6, 7, 8⟩ : PerfRow)], r'.Date ≤ r.Date) ∧
      (sortByDate (fun r => r.Date)
        [(⟨1, 2, 3, 4, 5, 6, 7, 8⟩ : PerfRow)]).getLast? = some r ∧
      performance_summary [(⟨1, 2, 3, 4, 5, 6, 7, 8⟩ : PerfRow)] =
        some (mkPerformanceSummary r)) ∧
    (∃ r ∈ [(⟨9, 1, 2, 3, 4, 5, 6, 7⟩ : RiskRow)],
      (∀ r' ∈ [(⟨9, 1, 2, 3, 4, 5, 6, 7⟩ : RiskRow)], r'.Date ≤ r.Date) ∧
      (sortByDate (fun r => r.Date)
        [(⟨9, 1, 2, 3, 4, 5, 6, 7⟩ : RiskRow)]).getLast? = some r ∧
      risk_summary [(⟨9, 1, 2, 3, 4, 5, 6, 7⟩ : RiskRow)] =
        some (mkRiskSummary r)) := by
  have h := C5_latest_row_summaries [(⟨1, 2, 3, 4, 5, 6, 7, 8⟩ : PerfRow)]
    [(⟨9, 1, 2, 3, 4, 5, 6, 7⟩ : RiskRow)]
  exact ⟨h.2.2.2.2.1 (by decide), h.2.2.2.2.2 (by decide)⟩

theorem stepLine_priorityOK
    (st : List RecBuild × Option RecBuild) (raw : List Char)
    (h : ∀ r ∈ st.1 ++ st.2.toList, priorityOKB r) :
    ∀ r ∈ (stepLine st raw).1 ++ (stepLine st raw).2.toList, priorityOKB r := by
  intro r hr
  simp only [stepLine] at hr
  split at hr
  · exact h r hr
  · split at hr
    · rcases List.mem_append.mp hr with hin | hin
      · exact h r hin
      · simp only [Option.toList_some, List.mem_singleton] at hin
        subst hin; right; left; rfl
    · split at hr
      · exact h r hr
      · rename_i cur heq
        have hcurok : priorityOKB cur := h cur
          (List.mem_append.mpr (Or.inr (by rw [heq]; simp)))
        split at hr
        · split at hr
          · rcases List.mem_append.mp hr with hin | hin
            · exact h r (List.mem_append.mpr (Or.inl hin))
            · simp only [Option.toList_some, List.mem_singleton] at hin
              subst hin; left; rfl
          · split at hr
            · rcases List.mem_append.mp hr with hin | hin
              · exact h r (List.mem_append.mpr (Or.inl hin))
              · simp only [Option.toList_some, List.mem_singleton] at hin
                subst hin; right; right; rfl
            · rcases List.mem_append.mp hr with hin | hin
              · exact h r (List.mem_append.mpr (Or.inl hin))
              · simp only [Option.toList_some, List.mem_singleton] at hin
                subst hin; exact hcurok
        · rcases List.mem_append.mp hr with hin | hin
          · exact h r (List.mem_append.mpr (Or.inl hin))
          · simp only [Option.toList_some, List.mem_singleton] at hin
            subst hin; exact hcurok

theorem foldl_stepLine_priorityOK (lines : List (List Char))
    (st : List RecBuild × Option RecBuild)
    (h : ∀ r ∈ st.1 ++ st.2.toList, priorityOKB r) :
    ∀ r ∈ (lines.foldl stepLine st).1 ++ (lines.foldl stepLine st).2.toList,
      priorityOKB r := by
  induction lines generalizing st with
  | nil => exact h
  | cons l rest ih =>
    rw [List.foldl_cons]
    exact ih (stepLine st l) (stepLine_priorityOK st l h)

theorem cleanupRec_priority (r : RecBuild) :
    (cleanupRec r).priority = r.priority := rfl

theorem cleanupRec_title (r : RecBuild) :
    (cleanupRec r).title = String.mk r.title := rfl

theorem string_mk_ne_empty {l : List Char} (h : l ≠ []) : String.mk l ≠ "" := by
  intro hcon
  exact h (congrArg String.data hcon)

theorem cleanupRec_nonempty (r : RecBuild) (h : r.title ≠ []) :
    (cleanupRec r).description ≠ "" ∧ (cleanupRec r).rationale ≠ "" := by
  rw [cleanupRec]
  by_cases hd : trimChars r.description = [] <;>
    by_cases hra : trimChars r.rationale = [] <;>
      simp_all [string_mk_ne_empty]

/-- Claim C6, amended. The parser `_parse_recommendations` returns, for every input
string, a list of at most 7 records whose priority is always one of
High, Medium or Low; an empty description falls back to the title and an
empty rationale to the description, so description and rationale are
nonempty whenever the title is nonempty. -/
theorem C6_parse_recommendations_shape (recommendations_text : String) :
    (_parse_recommendations recommendations_text).length ≤ 7 ∧
    (∀ r ∈ _parse_recommendations recommendations_text,
      (r.priority = "High" ∨ r.priority = "Medium" ∨ r.priority = "Low") ∧
      (r.title ≠ "" → r.description ≠ "" ∧ r.rationale ≠ "")) := by
  constructor
  · rw [_parse_recommendations]
    exact le_trans (List.length_take_le 7 _) (le_refl 7)
  · intro r hr
    rw [_parse_recommendations] at hr
    have hr' := List.mem_of_mem_take hr
    obtain ⟨r0, hr0, rfl⟩ := List.mem_map.mp hr'
    have hok := foldl_stepLine_priorityOK
      (splitLines recommendations_text.toList) ([], none) (by simp) r0 hr0
    refine ⟨by rw [cleanupRec_priority]; exact hok, fun ht => ?_⟩
    refine cleanupRec_nonempty r0 (fun hnil => ht ?_)
    rw [cleanupRec_title, hnil]

/-- Counterexample to C6 as stated: on the input `"1."` the parser
produces one record whose title, description and rationale are all
empty — the description falls back to the (empty) title. -/
theorem C6_counterexample :
    _parse_recommendations "1." = [(⟨"", "", "Medium", "", ""⟩ : Recommendation)] ∧
    ∃ r ∈ _parse_recommendations "1.", r.description = "" := by
  have h : _parse_recommendations "1." =
      [(⟨"", "", "Medium", "", ""⟩ : Recommendation)] := rfl
  refine ⟨h, (⟨"", "", "Medium", "", ""⟩ : Recommendation), ?_, rfl⟩
  rw [h]
  exact List.mem_singleton_self _

/-- Witness for the amended C6 on the input `"1. Rebalance"`. -/
theorem C6_witness :
    (_parse_recommendations "1. Rebalance").length ≤ 7 ∧
    (⟨"Rebalance", "Rebalance", "Medium", "Rebalance", ""⟩ :
      Recommendation).description ≠ "" := by
  have hmem : (⟨"Rebalance", "Rebalance", "Medium", "Rebalance", ""⟩ :
      Recommendation) ∈ _parse_recommendations "1. Rebalance" := by
    rw [show _parse_recommendations "1. Rebalance" =
      [(⟨"Rebalance", "Rebalance", "Medium", "Rebalance", ""⟩ :
        Recommendation)] from rfl]
    exact List.mem_singleton_self _
  refine ⟨(C6_parse_recommendations_shape "1. Rebalance").1, ?_⟩
  exact (((C6_parse_recommendations_shape "1. Rebalance").2
    ⟨"Rebalance", "Rebalance", "Medium", "Rebalance", ""⟩
    hmem).2 (by decide)).1

theorem cpm_rvr (data : UtilsData) :
    (calculate_portfolio_metrics data).return_volatility_ratio =
      (match data.performance_summary with
       | none => none
       | some perf =>
         some (if perf.volatility.getD 0 > 0
           then perf.total_return.getD 0 / perf.volatility.getD 0 else 0)) := by
  unfold calculate_portfolio_metrics
  cases data.performance_summary <;> cases data.holdings_data <;>
    dsimp only <;> (repeat' split) <;> rfl

theorem cpm_recovery (data : UtilsData) :
    (calculate_portfolio_metrics data).recovery_factor =
      (match data.performance_summary with
       | none => none
       | some perf =>
         some (if perf.max_drawdown.getD 0 < 0
           then ExtRat.val (perf.total_return.getD 0 /
             |perf.max_drawdown.getD 0|)
           else ExtRat.posInf)) := by
  unfold calculate_portfolio_metrics
  cases data.performance_summary <;> cases data.holdings_data <;>
    dsimp only <;> (repeat' split) <;> rfl

/-- Claim C10. The function `calculate_portfolio_metrics` never divides by zero: the
return/volatility ratio is the quotient only under `volatility > 0` and
`0` otherwise; the recovery factor is the quotient by `|max_drawdown|`
only under `max_drawdown < 0` and `+∞` otherwise; and the Herfindahl
index is produced only when the total sector value is positive. -/
theorem C10_no_division_by_zero (data : UtilsData) :
    (∀ perf, data.performance_summary = some perf →
      ((perf.volatility.getD 0 > 0 →
        (calculate_portfolio_metrics data).return_volatility_ratio =
          some (perf.total_return.getD 0 / perf.volatility.getD 0)) ∧
       (¬ perf.volatility.getD 0 > 0 →
        (calculate_portfolio_metrics data).return_volatility_ratio = some 0) ∧
       (perf.max_drawdown.getD 0 < 0 →
        (calculate_portfolio_metrics data).recovery_factor =
          some (ExtRat.val (perf.total_return.getD 0 /
            |perf.max_drawdown.getD 0|))) ∧
       (¬ perf.max_drawdown.getD 0 < 0 →
        (calculate_portfolio_metrics data).recovery_factor =
          some ExtRat.posInf))) ∧
    (∀ h, (calculate_portfolio_metrics data).sector_herfindahl = some h →
      ∃ hd, data.holdings_data = some hd ∧
        0 < (hd.sector_allocation.map Prod.snd).sum ∧
        h = ((hd.sector_allocation.map (fun p =>
          (p.2 / (hd.sector_allocation.map Prod.snd).sum) ^ 2)).sum)) := by
  constructor
  · intro perf hperf
    refine ⟨fun hv => ?_, fun hv => ?_, fun hd => ?_, fun hd => ?_⟩
    · rw [cpm_rvr, hperf]
      simp [hv]
    · rw [cpm_rvr, hperf]
      simp [hv]
    · rw [cpm_recovery, hperf]
      simp [hd]
    · rw [cpm_recovery, hperf]
      simp [hd]
  · intro h hh
    unfold calculate_portfolio_metrics at hh
    cases hhd : data.holdings_data with
    | none =>
      rw [hhd] at hh
      dsimp only at hh
      exfalso
      cases hp : data.performance_summary <;> rw [hp] at hh <;> simp at hh
    | some hd =>
      rw [hhd] at hh
      dsimp only at hh
      refine ⟨hd, rfl, ?_⟩
      by_cases h1 : hd.top_holdings.isEmpty
      · rw [if_pos h1] at hh
        exfalso
        cases hp : data.performance_summary <;> rw [hp] at hh <;> simp at hh
      · rw [if_neg h1] at hh
        by_cases h2 : hd.sector_allocation.isEmpty
        · rw [if_pos h2] at hh
          exfalso
          cases hp : data.performance_summary <;> rw [hp] at hh <;> simp at hh
        · rw [if_neg h2] at hh
          by_cases h3 : (hd.sector_allocation.map Prod.snd).sum > 0
          · rw [if_pos h3] at hh
            simp at hh
            exact ⟨h3, hh.symm⟩
          · rw [if_neg h3] at hh
            exfalso
            cases hp : data.performance_summary <;> rw [hp] at hh <;> simp at hh

/-- Witness for C10: performance with zero volatility and positive
drawdown yields ratio 0 and infinite recovery factor. -/
theorem C10_witness :
    (calculate_portfolio_metrics
      (⟨some ⟨some 1, none, none⟩, none⟩ : UtilsData)).return_volatility_ratio =
      some 0 ∧
    (calculate_portfolio_metrics
      (⟨some ⟨some 1, none, none⟩, none⟩ : UtilsData)).recovery_factor =
      some ExtRat.posInf := by
  have h := (C10_no_division_by_zero (⟨some ⟨some 1, none, none⟩, none⟩ :
    UtilsData)).1 ⟨some 1, none, none⟩ rfl
  exact ⟨h.2.1 (by decide), h.2.2.2 (by decide)⟩

end SPAI
